import Mathlib

/-!
Verification of the stanley function verifier (stanley-lib/src/lib.rs).

The repository provides one source file, lib.rs, which declares the
modules ast and condition_parser but whose sources are not part of the
repository snapshot.  Definitions translated from lib.rs keep the source
names.  Definitions for the missing modules, and for the host compiler
types lib.rs consumes (rustc MIR declarations, attributes), are modelled
from the specification and are marked as such in their doc comments.
-/

/-- Modelled from the spec: the type of a condition expression, one of
Int, Bool, Unknown (ast.rs is absent from the snapshot; the spec fixes
this set, with Unknown only valid before resolution). -/
inductive Types
| Int
| Bool
| Unknown
deriving DecidableEq, Repr

/-- Modelled from the spec: binary operators of the condition language. -/
inductive BinaryOperator
| Addition
| Subtraction
| Multiplication
| Division
| Modulo
| Equal
| NotEqual
| LessThan
| LessThanOrEqual
| GreaterThan
| GreaterThanOrEqual
| And
| Or
| Implication
deriving DecidableEq, Repr

/-- Modelled from the spec: unary operators (logical not, arithmetic minus). -/
inductive UnaryOperator
| Not
| Minus
deriving DecidableEq, Repr

/-- Modelled from the spec (ast.rs absent): the condition expression tree.
Constructor shapes follow the pattern matches of lib.rs walk_and_replace:
VariableMapping carries name and type, BinaryExpression carries left
subtree, operator, right subtree, UnaryExpression carries operator and
operand; literals are integer or boolean constants. -/
inductive Expression
| BooleanLiteral (value : Bool)
| IntegerLiteral (value : Int)
| VariableMapping (name : String) (ty : Types)
| BinaryExpression (left : Expression) (op : BinaryOperator) (right : Expression)
| UnaryExpression (op : UnaryOperator) (operand : Expression)
deriving DecidableEq, Repr

/-- Modelled from the spec: a host compiler type of a declaration,
restricted to the integer and boolean types the condition language
covers. -/
inductive Ty
| int
| bool
deriving DecidableEq, Repr

/-- Modelled from the spec (ast.rs absent): conversion from a host type to
the condition language type enum, applied by lib.rs to argument types and
to the function return type. -/
def type_to_enum : Ty → Types
| Ty.int => Types.Int
| Ty.bool => Types.Bool

/-- A rustc MIR local declaration as lib.rs reads it: an optional name
(read with unwrap, so a missing name aborts) and a host type. -/
structure LocalDecl where
  name : Option String
  ty : Ty
deriving DecidableEq, Repr

/-- Modelled from the spec: a basic block of the control-flow graph,
reduced to its successor references, the only structure the back-edge
notion of the spec needs; lib.rs only collects blocks into a vector and
never reads them. -/
structure BasicBlockData where
  successors : List Nat
deriving DecidableEq, Repr

/-- The MirData record built by run_pass (lib.rs lines 30 to 36). -/
structure MirData where
  block_data : List BasicBlockData
  arg_data : List LocalDecl
  var_data : List LocalDecl
  temp_data : List LocalDecl
  func_return_type : Ty
deriving DecidableEq, Repr

/-- The loop body of get_argument_type (lib.rs lines 136 to 143): walk the
argument declarations in order; reading a declaration with no name aborts
(Option unwrap); on a name match return the converted type.  An abort is
modelled as an error value. -/
def get_argument_type_go (name : String) : List LocalDecl → Except String Types
| [] => Except.ok Types.Unknown
| arg :: rest =>
  match arg.name with
  | none => Except.error "called Option::unwrap on a None value"
  | some arg_name =>
    if name = arg_name then Except.ok (type_to_enum arg.ty)
    else get_argument_type_go name rest

/-- get_argument_type (lib.rs lines 135 to 145): look the name up among
the argument declarations only; absent names yield Types.Unknown, not an
error. -/
def get_argument_type (name : String) (data : MirData) : Except String Types :=
  get_argument_type_go name data.arg_data

/-- walk_and_replace (lib.rs lines 147 to 176): replace the type of every
VariableMapping that still carries Unknown, using the return type for the
name ret and get_argument_type otherwise; recurse structurally, leaving
every other node unchanged. -/
def walk_and_replace (expression : Expression) (data : MirData) : Except String Expression :=
  match expression with
  | Expression.VariableMapping a b =>
    if b = Types.Unknown then
      if a = "ret" then
        Except.ok (Expression.VariableMapping a (type_to_enum data.func_return_type))
      else
        match get_argument_type a data with
        | Except.error m => Except.error m
        | Except.ok t => Except.ok (Expression.VariableMapping a t)
    else
      Except.ok (Expression.VariableMapping a b)
  | Expression.BinaryExpression a b c =>
    match walk_and_replace a data with
    | Except.error m => Except.error m
    | Except.ok aa =>
      match walk_and_replace c data with
      | Except.error m => Except.error m
      | Except.ok ca => Except.ok (Expression.BinaryExpression aa b ca)
  | Expression.UnaryExpression a b =>
    match walk_and_replace b data with
    | Except.error m => Except.error m
    | Except.ok ba => Except.ok (Expression.UnaryExpression a ba)
  | _ => Except.ok expression

/-- Modelled from the spec (ast.rs absent): the type errors of section 4.2,
an unknown (unresolved) variable, an operand type mismatch reported as
expected versus actual, and a non-boolean root condition. -/
inductive TypeErr
| UnknownVariable (name : String)
| Mismatch (expected : Types) (actual : Types)
| NotBoolean (actual : Types)
deriving DecidableEq, Repr

/-- Modelled from the spec: result type of a binary operator given its
operand types; arithmetic needs Int and Int giving Int, ordering needs Int
and Int giving Bool, equality needs equal operand types giving Bool, and
the logical operators need Bool and Bool giving Bool. -/
def binop_type (op : BinaryOperator) (lt rt : Types) : Except TypeErr Types :=
  match op with
  | BinaryOperator.Addition | BinaryOperator.Subtraction | BinaryOperator.Multiplication
  | BinaryOperator.Division | BinaryOperator.Modulo =>
    if lt = Types.Int then
      if rt = Types.Int then Except.ok Types.Int
      else Except.error (TypeErr.Mismatch Types.Int rt)
    else Except.error (TypeErr.Mismatch Types.Int lt)
  | BinaryOperator.LessThan | BinaryOperator.LessThanOrEqual
  | BinaryOperator.GreaterThan | BinaryOperator.GreaterThanOrEqual =>
    if lt = Types.Int then
      if rt = Types.Int then Except.ok Types.Bool
      else Except.error (TypeErr.Mismatch Types.Int rt)
    else Except.error (TypeErr.Mismatch Types.Int lt)
  | BinaryOperator.Equal | BinaryOperator.NotEqual =>
    if lt = rt then Except.ok Types.Bool
    else Except.error (TypeErr.Mismatch lt rt)
  | BinaryOperator.And | BinaryOperator.Or | BinaryOperator.Implication =>
    if lt = Types.Bool then
      if rt = Types.Bool then Except.ok Types.Bool
      else Except.error (TypeErr.Mismatch Types.Bool rt)
    else Except.error (TypeErr.Mismatch Types.Bool lt)

/-- Modelled from the spec: result type of a unary operator. -/
def unop_type (op : UnaryOperator) (t : Types) : Except TypeErr Types :=
  match op with
  | UnaryOperator.Not =>
    if t = Types.Bool then Except.ok Types.Bool
    else Except.error (TypeErr.Mismatch Types.Bool t)
  | UnaryOperator.Minus =>
    if t = Types.Int then Except.ok Types.Int
    else Except.error (TypeErr.Mismatch Types.Int t)

/-- Modelled from the spec: the bottom-up typing pass of section 4.2.  A
VariableMapping still carrying Unknown is an error (Unknown must not
survive into type checking) and is reported as UnknownVariable with the
variable name. -/
def ty_check_expr : Expression → Except TypeErr Types
| Expression.BooleanLiteral _ => Except.ok Types.Bool
| Expression.IntegerLiteral _ => Except.ok Types.Int
| Expression.VariableMapping n t =>
  if t = Types.Unknown then Except.error (TypeErr.UnknownVariable n)
  else Except.ok t
| Expression.BinaryExpression l op r =>
  match ty_check_expr l with
  | Except.error e => Except.error e
  | Except.ok lt =>
    match ty_check_expr r with
    | Except.error e => Except.error e
    | Except.ok rt => binop_type op lt rt
| Expression.UnaryExpression op e1 =>
  match ty_check_expr e1 with
  | Except.error e => Except.error e
  | Except.ok t1 => unop_type op t1

/-- Modelled from the spec (ast.rs absent): ty_check as called by lib.rs
on a precondition or postcondition; the root expression must type to Bool,
any other root type is NotBoolean. -/
def ty_check (e : Expression) : Except TypeErr Types :=
  match ty_check_expr e with
  | Except.error er => Except.error er
  | Except.ok t =>
    if t = Types.Bool then Except.ok Types.Bool
    else Except.error (TypeErr.NotBoolean t)

/-- Rendering of a type error for the abort message of the unwrap calls in
run_pass (lib.rs lines 83 and 84). -/
def typeErrMsg : TypeErr → String
| TypeErr.UnknownVariable n => "UnknownVariable " ++ n
| TypeErr.Mismatch _ _ => "type mismatch"
| TypeErr.NotBoolean _ => "condition is not boolean"

/-- A nested attribute item as lib.rs distinguishes them (lines 190 to
201): a meta item that is a name-value pair with a string literal value, a
name-value pair with a non-string literal (silently skipped), or anything
else (silently skipped). -/
inductive NestedItem
| nameValueStr (name : String) (value : String)
| nameValueOther (name : String)
| otherItem
deriving DecidableEq, Repr

/-- A function attribute as lib.rs distinguishes them: a list attribute
carrying nested items, or any other attribute shape (skipped). -/
inductive AttrValue
| list (items : List NestedItem)
| notList
deriving DecidableEq, Repr

/-- The inner loop of parse_attributes over the items of one list
attribute: a string name-value named pre or post updates the respective
accumulator, any other string name-value aborts (source: a panic with the
offending name), everything else is skipped. -/
def parse_attributes_items : List NestedItem → String → String → Except String (String × String)
| [], pre, post => Except.ok (pre, post)
| NestedItem.nameValueStr pname v :: rest, pre, post =>
  if pname = "pre" then parse_attributes_items rest v post
  else if pname = "post" then parse_attributes_items rest pre v
  else Except.error ("I only accept pre and post. You gave me " ++ pname)
| _ :: rest, pre, post => parse_attributes_items rest pre post

/-- The outer loop of parse_attributes over the attribute slice. -/
def parse_attributes_attrs : List AttrValue → String → String → Except String (String × String)
| [], pre, post => Except.ok (pre, post)
| AttrValue.list items :: rest, pre, post =>
  match parse_attributes_items items pre post with
  | Except.error m => Except.error m
  | Except.ok (p, q) => parse_attributes_attrs rest p q
| AttrValue.notList :: rest, pre, post => parse_attributes_attrs rest pre post

/-- parse_attributes (lib.rs lines 185 to 209): both accumulators start
empty; an abort (panic in the source) is modelled as an error value. -/
def parse_attributes (attrs : List AttrValue) : Except String (String × String) :=
  parse_attributes_attrs attrs "" ""

/-- A parse error of the external condition grammar, abstracted to its
message (condition_parser.rs is absent from the snapshot; run_pass is
parameterised over the parse function). -/
abbrev ParseErr := String

/-- parse_condition (lib.rs lines 178 to 183): run the external parse
function; a parse failure aborts (source: a panic naming the condition),
modelled as an error value. -/
def parse_condition (parse_Condition : String → Except ParseErr Expression)
    (condition : String) : Except String Expression :=
  match parse_Condition condition with
  | Except.ok e => Except.ok e
  | Except.error _ => Except.error ("Error parsing condition " ++ condition)

/-- A solver term of the z3 crate as lib.rs builds them: integer and
boolean numerals, named constants keyed by name and sort, and the operator
nodes the encoder of the spec needs. -/
inductive Z3Ast
| intLit (v : Int)
| boolLit (b : Bool)
| intConst (name : String)
| boolConst (name : String)
| add (a b : Z3Ast)
| sub (a b : Z3Ast)
| mul (a b : Z3Ast)
| div (a b : Z3Ast)
| rem (a b : Z3Ast)
| eq (a b : Z3Ast)
| ne (a b : Z3Ast)
| lt (a b : Z3Ast)
| le (a b : Z3Ast)
| gt (a b : Z3Ast)
| ge (a b : Z3Ast)
| and (a b : Z3Ast)
| or (a b : Z3Ast)
| implies (a b : Z3Ast)
| not (a : Z3Ast)
| neg (a : Z3Ast)
deriving DecidableEq, Repr

/-- The fixed query gen_smtlib asserts (lib.rs lines 116 to 126): the
constants x and y with x greater than y, y positive, y rem 7 equal to 2,
and x plus 2 greater than 7. -/
def stanleyFixedQuery : List Z3Ast :=
  [ Z3Ast.gt (Z3Ast.intConst "x") (Z3Ast.intConst "y"),
    Z3Ast.gt (Z3Ast.intConst "y") (Z3Ast.intLit 0),
    Z3Ast.eq (Z3Ast.rem (Z3Ast.intConst "y") (Z3Ast.intLit 7)) (Z3Ast.intLit 2),
    Z3Ast.gt (Z3Ast.add (Z3Ast.intConst "x") (Z3Ast.intLit 2)) (Z3Ast.intLit 7) ]

/-- gen_smtlib (lib.rs lines 112 to 133) reduced to the assertions it
submits to the solver: it ignores both the expression and the function
name and always asserts the fixed query. -/
def gen_smtlib_asserts (expression : Expression) (name : String) : List Z3Ast :=
  stanleyFixedQuery

/-- A solver value, integer or boolean. -/
inductive Z3Val
| i (v : Int)
| b (v : Bool)
deriving DecidableEq, Repr

/-- Evaluation of a solver term under an assignment of values to constant
names; sort confusion yields none.  rem is integer remainder (the
arguments used in lib.rs are nonnegative, where the z3 semantics and
Int.emod agree). -/
def evalZ3 (env : String → Z3Val) : Z3Ast → Option Z3Val
| Z3Ast.intLit v => some (Z3Val.i v)
| Z3Ast.boolLit b => some (Z3Val.b b)
| Z3Ast.intConst n =>
  match env n with
  | Z3Val.i v => some (Z3Val.i v)
  | _ => none
| Z3Ast.boolConst n =>
  match env n with
  | Z3Val.b v => some (Z3Val.b v)
  | _ => none
| Z3Ast.add a b =>
  match evalZ3 env a, evalZ3 env b with
  | some (Z3Val.i x), some (Z3Val.i y) => some (Z3Val.i (x + y))
  | _, _ => none
| Z3Ast.sub a b =>
  match evalZ3 env a, evalZ3 env b with
  | some (Z3Val.i x), some (Z3Val.i y) => some (Z3Val.i (x - y))
  | _, _ => none
| Z3Ast.mul a b =>
  match evalZ3 env a, evalZ3 env b with
  | some (Z3Val.i x), some (Z3Val.i y) => some (Z3Val.i (x * y))
  | _, _ => none
| Z3Ast.div a b =>
  match evalZ3 env a, evalZ3 env b with
  | some (Z3Val.i x), some (Z3Val.i y) => some (Z3Val.i (x / y))
  | _, _ => none
| Z3Ast.rem a b =>
  match evalZ3 env a, evalZ3 env b with
  | some (Z3Val.i x), some (Z3Val.i y) => some (Z3Val.i (x % y))
  | _, _ => none
| Z3Ast.eq a b =>
  match evalZ3 env a, evalZ3 env b with
  | some (Z3Val.i x), some (Z3Val.i y) => some (Z3Val.b (x = y))
  | some (Z3Val.b x), some (Z3Val.b y) => some (Z3Val.b (x = y))
  | _, _ => none
| Z3Ast.ne a b =>
  match evalZ3 env a, evalZ3 env b with
  | some (Z3Val.i x), some (Z3Val.i y) => some (Z3Val.b (x ≠ y))
  | some (Z3Val.b x), some (Z3Val.b y) => some (Z3Val.b (x ≠ y))
  | _, _ => none
| Z3Ast.lt a b =>
  match evalZ3 env a, evalZ3 env b with
  | some (Z3Val.i x), some (Z3Val.i y) => some (Z3Val.b (x < y))
  | _, _ => none
| Z3Ast.le a b =>
  match evalZ3 env a, evalZ3 env b with
  | some (Z3Val.i x), some (Z3Val.i y) => some (Z3Val.b (x ≤ y))
  | _, _ => none
| Z3Ast.gt a b =>
  match evalZ3 env a, evalZ3 env b with
  | some (Z3Val.i x), some (Z3Val.i y) => some (Z3Val.b (y < x))
  | _, _ => none
| Z3Ast.ge a b =>
  match evalZ3 env a, evalZ3 env b with
  | some (Z3Val.i x), some (Z3Val.i y) => some (Z3Val.b (y ≤ x))
  | _, _ => none
| Z3Ast.and a b =>
  match evalZ3 env a, evalZ3 env b with
  | some (Z3Val.b x), some (Z3Val.b y) => some (Z3Val.b (x && y))
  | _, _ => none
| Z3Ast.or a b =>
  match evalZ3 env a, evalZ3 env b with
  | some (Z3Val.b x), some (Z3Val.b y) => some (Z3Val.b (x || y))
  | _, _ => none
| Z3Ast.implies a b =>
  match evalZ3 env a, evalZ3 env b with
  | some (Z3Val.b x), some (Z3Val.b y) => some (Z3Val.b (!x || y))
  | _, _ => none
| Z3Ast.not a =>
  match evalZ3 env a with
  | some (Z3Val.b x) => some (Z3Val.b (!x))
  | _ => none
| Z3Ast.neg a =>
  match evalZ3 env a with
  | some (Z3Val.i x) => some (Z3Val.i (-x))
  | _ => none

/-- An assignment satisfies a list of assertions when every assertion
evaluates to the boolean value true. -/
def evalAsserts (q : List Z3Ast) (env : String → Z3Val) : Bool :=
  q.all fun a => decide (evalZ3 env a = some (Z3Val.b true))

/-- The satisfying assignment the lib.rs query admits: x is 9, every other
constant is 2. -/
def envW : String → Z3Val :=
  fun n => if n = "x" then Z3Val.i 9 else Z3Val.i 2

/-- The observable outcome of one invocation of the MIR pass on one
function: an early return with the function skipped, an abort of the whole
compilation (a panic in the source, carrying the message), or completion,
carrying the assertions handed to the solver. -/
inductive RunOutcome
| skipped
| aborted (msg : String)
| completed (asserts : List Z3Ast)
deriving DecidableEq, Repr

/-- StanleyMir::run_pass (lib.rs lines 41 to 109): read the pre and post
strings from the attributes, return early when either is empty, parse both
conditions (a parse failure aborts), build the MirData record from the MIR
blocks and declarations, resolve both condition trees with
walk_and_replace, type check both with unwrap (a type error aborts), and
finally call gen_smtlib on the resolved postcondition.  The external
condition grammar is passed in as the parse function parse_Cond. -/
def run_pass (name : String) (attrs : List AttrValue)
    (parse_Cond : String → Except ParseErr Expression)
    (basic_blocks : List BasicBlockData)
    (args vars temps : List LocalDecl) (return_ty : Ty) : RunOutcome :=
  match parse_attributes attrs with
  | Except.error m => RunOutcome.aborted m
  | Except.ok (pre_string, post_string) =>
    if pre_string = "" ∨ post_string = "" then RunOutcome.skipped
    else
      match parse_condition parse_Cond pre_string with
      | Except.error m => RunOutcome.aborted m
      | Except.ok pre_string_expression =>
        match parse_condition parse_Cond post_string with
        | Except.error m => RunOutcome.aborted m
        | Except.ok post_string_expression =>
          let data : MirData :=
            { block_data := basic_blocks, arg_data := args, var_data := vars,
              temp_data := temps, func_return_type := return_ty }
          match walk_and_replace pre_string_expression data with
          | Except.error m => RunOutcome.aborted m
          | Except.ok pre_resolved =>
            match walk_and_replace post_string_expression data with
            | Except.error m => RunOutcome.aborted m
            | Except.ok post_resolved =>
              match ty_check pre_resolved with
              | Except.error e => RunOutcome.aborted (typeErrMsg e)
              | Except.ok _ =>
                match ty_check post_resolved with
                | Except.error e => RunOutcome.aborted (typeErrMsg e)
                | Except.ok _ =>
                  RunOutcome.completed (gen_smtlib_asserts post_resolved name)

/-- Modelled from the spec, for comparison with gen_smtlib: the
term-by-term encoding of section 4.5, integer literals to integer
constants, boolean literals to boolean constants, variables to solver
constants keyed by name and type, operators to the corresponding solver
operators; an unresolved variable has no solver constant and fails. -/
def encode_spec : Expression → Option Z3Ast
| Expression.IntegerLiteral v => some (Z3Ast.intLit v)
| Expression.BooleanLiteral b => some (Z3Ast.boolLit b)
| Expression.VariableMapping n t =>
  match t with
  | Types.Int => some (Z3Ast.intConst n)
  | Types.Bool => some (Z3Ast.boolConst n)
  | Types.Unknown => none
| Expression.BinaryExpression l op r =>
  match encode_spec l, encode_spec r with
  | some la, some ra =>
    some (match op with
      | BinaryOperator.Addition => Z3Ast.add la ra
      | BinaryOperator.Subtraction => Z3Ast.sub la ra
      | BinaryOperator.Multiplication => Z3Ast.mul la ra
      | BinaryOperator.Division => Z3Ast.div la ra
      | BinaryOperator.Modulo => Z3Ast.rem la ra
      | BinaryOperator.Equal => Z3Ast.eq la ra
      | BinaryOperator.NotEqual => Z3Ast.ne la ra
      | BinaryOperator.LessThan => Z3Ast.lt la ra
      | BinaryOperator.LessThanOrEqual => Z3Ast.le la ra
      | BinaryOperator.GreaterThan => Z3Ast.gt la ra
      | BinaryOperator.GreaterThanOrEqual => Z3Ast.ge la ra
      | BinaryOperator.And => Z3Ast.and la ra
      | BinaryOperator.Or => Z3Ast.or la ra
      | BinaryOperator.Implication => Z3Ast.implies la ra)
  | _, _ => none
| Expression.UnaryExpression op e1 =>
  match encode_spec e1 with
  | some ea =>
    some (match op with
      | UnaryOperator.Not => Z3Ast.not ea
      | UnaryOperator.Minus => Z3Ast.neg ea)
  | none => none

/-- A solver term whose head is a negation. -/
def isNegZ3 : Z3Ast → Bool
| Z3Ast.not _ => true
| _ => false

/-- A resolved tree has no variable reference still typed Unknown. -/
def noUnknownVarRef : Expression → Bool
| Expression.VariableMapping _ t => decide (t ≠ Types.Unknown)
| Expression.BinaryExpression l _ r => noUnknownVarRef l && noUnknownVarRef r
| Expression.UnaryExpression _ e1 => noUnknownVarRef e1
| _ => true

/-- A nested item that sets the parameter named p with a string value. -/
def itemSetsParam (p : String) : NestedItem → Bool
| NestedItem.nameValueStr n _ => decide (n = p)
| _ => false

/-- An attribute that sets the parameter named p. -/
def attrSetsParam (p : String) : AttrValue → Bool
| AttrValue.list items => items.any (itemSetsParam p)
| _ => false

/-- An attribute list that sets the parameter named p somewhere. -/
def attrsSetParam (p : String) (attrs : List AttrValue) : Bool :=
  attrs.any (attrSetsParam p)

/-- A string name-value item whose name is neither pre nor post, the shape
parse_attributes aborts on. -/
def itemBad : NestedItem → Bool
| NestedItem.nameValueStr n _ => decide (n ≠ "pre") && decide (n ≠ "post")
| _ => false

/-- An attribute list containing no string name-value item with a name
other than pre and post. -/
def attrsNoBad (attrs : List AttrValue) : Bool :=
  attrs.all fun a =>
    match a with
    | AttrValue.list items => items.all fun i => !(itemBad i)
    | AttrValue.notList => true

/-- One control-flow edge of the block list: block j is a successor of
block i. -/
def blockSucc (blocks : List BasicBlockData) (i j : Nat) : Prop :=
  ∃ blk, blocks[i]? = some blk ∧ j ∈ blk.successors

/-- The back-edge notion of the spec: some block reaches itself through
one or more control-flow edges. -/
def hasBackEdge (blocks : List BasicBlockData) : Prop :=
  ∃ i, Relation.TransGen (blockSucc blocks) i i

/-- An outcome that is an abort of the compilation. -/
def RunOutcome.isAbort : RunOutcome → Bool
| RunOutcome.aborted _ => true
| _ => false

/-- Every declaration in the list carries a name, and none of the names is
the given one; under this condition get_argument_type completes its walk
and reports Unknown. -/
def argNamesAvoid (name : String) (l : List LocalDecl) : Bool :=
  l.all fun d =>
    match d.name with
    | some n => decide (n ≠ name)
    | none => false

/-- A function with no arguments, locals or temporaries, returning an
integer. -/
def dataNoArgs : MirData :=
  { block_data := [], arg_data := [], var_data := [],
    temp_data := [], func_return_type := Ty.int }

/-- A function whose only named entry is the local variable y of integer
type; it is a local, not an argument. -/
def dataLocalY : MirData :=
  { block_data := [], arg_data := [], var_data := [LocalDecl.mk (some "y") Ty.int],
    temp_data := [], func_return_type := Ty.int }

/-- A one-block control-flow graph whose block is its own successor: a
back-edge. -/
def loopBlocks : List BasicBlockData := [BasicBlockData.mk [0]]

/-- A concrete condition grammar recognising exactly the source text true. -/
def condParserTT : String → Except ParseErr Expression :=
  fun s =>
    if s = "true" then Except.ok (Expression.BooleanLiteral true)
    else Except.error "unexpected token"

/-- A concrete condition grammar recognising the texts true and x > 0. -/
def condParserXgt : String → Except ParseErr Expression :=
  fun s =>
    if s = "true" then Except.ok (Expression.BooleanLiteral true)
    else if s = "x > 0" then
      Except.ok (Expression.BinaryExpression
        (Expression.VariableMapping "x" Types.Unknown)
        BinaryOperator.GreaterThan (Expression.IntegerLiteral 0))
    else Except.error "unexpected token"

/-- An annotation carrying pre true and post true. -/
def attrsTT : List AttrValue :=
  [AttrValue.list
    [NestedItem.nameValueStr "pre" "true", NestedItem.nameValueStr "post" "true"]]

/-- An annotation carrying pre true and post x > 0. -/
def attrsXgt : List AttrValue :=
  [AttrValue.list
    [NestedItem.nameValueStr "pre" "true", NestedItem.nameValueStr "post" "x > 0"]]

/-- The argument list of a function with one integer argument named x. -/
def argX : List LocalDecl := [LocalDecl.mk (some "x") Ty.int]

theorem type_to_enum_ne_unknown (t : Ty) : type_to_enum t ≠ Types.Unknown := by
  cases t <;> simp [type_to_enum]

theorem get_argument_type_go_miss (name : String) (l : List LocalDecl)
    (h : argNamesAvoid name l = true) :
    get_argument_type_go name l = Except.ok Types.Unknown := by
  induction l with
  | nil => rfl
  | cons d rest ih =>
    simp only [argNamesAvoid, List.all_cons, Bool.and_eq_true] at h
    obtain ⟨hd, hrest⟩ := h
    cases hn : d.name with
    | none => rw [hn] at hd; simp at hd
    | some n =>
      rw [hn] at hd
      simp only [decide_eq_true_eq] at hd
      have hne : name ≠ n := fun hc => hd hc.symm
      simp only [get_argument_type_go, hn, if_neg hne]
      exact ih hrest

theorem get_argument_type_miss (name : String) (data : MirData)
    (h : argNamesAvoid name data.arg_data = true) :
    get_argument_type name data = Except.ok Types.Unknown :=
  get_argument_type_go_miss name data.arg_data h

/-- Claim C2, counterexample: on a condition referencing the name foo,
absent from every table of a function with no arguments, type resolution
does not fail: walk_and_replace succeeds and returns the reference still
typed Unknown, and no UnknownVariable error is produced by the resolution
pass. -/
theorem walk_and_replace_absent_name_no_error :
    walk_and_replace (Expression.VariableMapping "foo" Types.Unknown) dataNoArgs
      = Except.ok (Expression.VariableMapping "foo" Types.Unknown) := rfl

/-- Claim C2, amended: for a variable reference whose name is not ret and
is absent from the argument declarations (all of which are named), type
resolution succeeds and leaves the reference typed Unknown; the
UnknownVariable error only arises in the subsequent type check (modelled
from the spec), whose unwrap in run_pass aborts the compilation. -/
theorem walk_and_replace_absent_name_unknown (name : String) (data : MirData)
    (h1 : name ≠ "ret") (h2 : argNamesAvoid name data.arg_data = true) :
    walk_and_replace (Expression.VariableMapping name Types.Unknown) data
      = Except.ok (Expression.VariableMapping name Types.Unknown) ∧
    ty_check (Expression.VariableMapping name Types.Unknown)
      = Except.error (TypeErr.UnknownVariable name) := by
  constructor
  · simp [walk_and_replace, if_neg h1, get_argument_type_miss name data h2]
  · simp [ty_check, ty_check_expr]

theorem walk_and_replace_absent_name_unknown_witness :
    walk_and_replace (Expression.VariableMapping "foo" Types.Unknown) dataNoArgs
      = Except.ok (Expression.VariableMapping "foo" Types.Unknown) ∧
    ty_check (Expression.VariableMapping "foo" Types.Unknown)
      = Except.error (TypeErr.UnknownVariable "foo") :=
  walk_and_replace_absent_name_unknown "foo" dataNoArgs (by decide) (by decide)

theorem ty_check_expr_ok_no_unknown (e : Expression) :
    ∀ t, ty_check_expr e = Except.ok t → noUnknownVarRef e = true := by
  induction e with
  | BooleanLiteral v => intro t _; rfl
  | IntegerLiteral v => intro t _; rfl
  | VariableMapping n ty =>
    intro t h
    by_cases hu : ty = Types.Unknown
    · simp [ty_check_expr, hu] at h
    · simp [noUnknownVarRef, hu]
  | BinaryExpression l op r ihl ihr =>
    intro t h
    simp only [ty_check_expr] at h
    split at h
    · exact absurd h (by simp)
    · rename_i lt hl
      split at h
      · exact absurd h (by simp)
      · rename_i rt hr
        simp [noUnknownVarRef, ihl lt hl, ihr rt hr]
  | UnaryExpression op e1 ih =>
    intro t h
    simp only [ty_check_expr] at h
    split at h
    · exact absurd h (by simp)
    · rename_i t1 h1
      simp [noUnknownVarRef, ih t1 h1]

/-- Claim C3, counterexample: type resolution succeeds on a condition
referencing the unknown name z, and the resulting tree still contains a
variable reference typed Unknown. -/
theorem walk_and_replace_unknown_survives :
    walk_and_replace
      (Expression.BinaryExpression (Expression.VariableMapping "z" Types.Unknown)
        BinaryOperator.Or (Expression.BooleanLiteral true)) dataNoArgs
      = Except.ok
        (Expression.BinaryExpression (Expression.VariableMapping "z" Types.Unknown)
          BinaryOperator.Or (Expression.BooleanLiteral true)) ∧
    noUnknownVarRef
      (Expression.BinaryExpression (Expression.VariableMapping "z" Types.Unknown)
        BinaryOperator.Or (Expression.BooleanLiteral true)) = false :=
  ⟨rfl, rfl⟩

/-- Claim C3, amended: walk_and_replace alone may leave Unknown variable
references in its (always successful) result; the no-Unknown invariant
holds of the resolved tree only once the subsequent type check (modelled
from the spec, and run through unwrap in run_pass) accepts it. -/
theorem ty_check_ok_no_unknown_varref (e : Expression) (data : MirData)
    (er : Expression) (t : Types)
    (hw : walk_and_replace e data = Except.ok er)
    (ht : ty_check er = Except.ok t) :
    noUnknownVarRef er = true := by
  simp only [ty_check] at ht
  split at ht
  · exact absurd ht (by simp)
  · rename_i t1 h1
    exact ty_check_expr_ok_no_unknown er t1 h1

theorem ty_check_ok_no_unknown_varref_witness :
    noUnknownVarRef
      (Expression.BinaryExpression (Expression.VariableMapping "ret" Types.Int)
        BinaryOperator.Equal (Expression.IntegerLiteral 0)) = true :=
  ty_check_ok_no_unknown_varref
    (Expression.BinaryExpression (Expression.VariableMapping "ret" Types.Unknown)
      BinaryOperator.Equal (Expression.IntegerLiteral 0))
    dataNoArgs
    (Expression.BinaryExpression (Expression.VariableMapping "ret" Types.Int)
      BinaryOperator.Equal (Expression.IntegerLiteral 0))
    Types.Bool rfl rfl

/-- Claim C4, counterexample: the name y is a declared local of integer
type, yet type resolution leaves its reference typed Unknown instead of
binding it to Int: the lookup consults only the argument declarations. -/
theorem walk_and_replace_ignores_locals_counterexample :
    LocalDecl.mk (some "y") Ty.int ∈ dataLocalY.var_data ∧
    walk_and_replace (Expression.VariableMapping "y" Types.Unknown) dataLocalY
      = Except.ok (Expression.VariableMapping "y" Types.Unknown) ∧
    Expression.VariableMapping "y" Types.Unknown
      ≠ Expression.VariableMapping "y" Types.Int := by
  refine ⟨?_, rfl, by decide⟩
  simp [dataLocalY]

/-- Claim C4, amended: a variable reference whose name matches only a
local or temporary declaration is not bound to that entry; resolution
consults the argument declarations (and the name ret) only, and such a
reference stays typed Unknown. -/
theorem walk_and_replace_ignores_locals_and_temps (name : String)
    (data : MirData) (d : LocalDecl)
    (h1 : name ≠ "ret") (h2 : argNamesAvoid name data.arg_data = true)
    (h3 : d ∈ data.var_data ∨ d ∈ data.temp_data) (h4 : d.name = some name) :
    walk_and_replace (Expression.VariableMapping name Types.Unknown) data
      = Except.ok (Expression.VariableMapping name Types.Unknown) := by
  simp [walk_and_replace, if_neg h1, get_argument_type_miss name data h2]

theorem walk_and_replace_ignores_locals_and_temps_witness :
    walk_and_replace (Expression.VariableMapping "y" Types.Unknown) dataLocalY
      = Except.ok (Expression.VariableMapping "y" Types.Unknown) :=
  walk_and_replace_ignores_locals_and_temps "y" dataLocalY
    (LocalDecl.mk (some "y") Ty.int) (by decide) (by decide)
    (Or.inl (by simp [dataLocalY])) rfl

/-- Claim C8, confirmed: with a fixed variable table, two runs of type
resolution on the same unresolved expression yield identical results;
walk_and_replace is a pure function of the expression and the table. -/
theorem walk_and_replace_deterministic (e : Expression) (data : MirData)
    (r1 r2 : Except String Expression)
    (h1 : walk_and_replace e data = r1) (h2 : walk_and_replace e data = r2) :
    r1 = r2 :=
  h1.symm.trans h2

theorem walk_and_replace_deterministic_witness :
    (Except.ok (Expression.VariableMapping "ret" Types.Int) : Except String Expression)
      = Except.ok (Expression.VariableMapping "ret" Types.Int) :=
  walk_and_replace_deterministic (Expression.VariableMapping "ret" Types.Unknown)
    dataNoArgs
    (Except.ok (Expression.VariableMapping "ret" Types.Int))
    (Except.ok (Expression.VariableMapping "ret" Types.Int)) rfl rfl

/-- Claim C10, confirmed: type resolution is idempotent; a successful
second pass over an already resolved tree returns it unchanged, because a
variable reference that no longer carries Unknown is left alone and one
that still does resolves to the same type again. -/
theorem walk_and_replace_idempotent (e : Expression) (data : MirData)
    (er : Expression) (h : walk_and_replace e data = Except.ok er) :
    walk_and_replace er data = Except.ok er := by
  induction e generalizing er with
  | BooleanLiteral v =>
    simp only [walk_and_replace, Except.ok.injEq] at h
    subst h; rfl
  | IntegerLiteral v =>
    simp only [walk_and_replace, Except.ok.injEq] at h
    subst h; rfl
  | VariableMapping a b =>
    simp only [walk_and_replace] at h
    by_cases hb : b = Types.Unknown
    · rw [if_pos hb] at h
      by_cases ha : a = "ret"
      · rw [if_pos ha] at h
        simp only [Except.ok.injEq] at h
        subst h
        simp [walk_and_replace, type_to_enum_ne_unknown]
      · rw [if_neg ha] at h
        split at h
        · exact absurd h (by simp)
        · rename_i t hg
          simp only [Except.ok.injEq] at h
          subst h
          by_cases ht : t = Types.Unknown
          · subst ht
            simp [walk_and_replace, if_neg ha, hg]
          · simp [walk_and_replace, ht]
    · rw [if_neg hb] at h
      simp only [Except.ok.injEq] at h
      subst h
      simp [walk_and_replace, hb]
  | BinaryExpression l op r ihl ihr =>
    simp only [walk_and_replace] at h
    split at h
    · exact absurd h (by simp)
    · rename_i aa hl
      split at h
      · exact absurd h (by simp)
      · rename_i ca hr
        simp only [Except.ok.injEq] at h
        subst h
        simp [walk_and_replace, ihl aa hl, ihr ca hr]
  | UnaryExpression op e1 ih =>
    simp only [walk_and_replace] at h
    split at h
    · exact absurd h (by simp)
    · rename_i ba hb
      simp only [Except.ok.injEq] at h
      subst h
      simp [walk_and_replace, ih ba hb]

theorem walk_and_replace_idempotent_witness :
    walk_and_replace (Expression.VariableMapping "ret" Types.Int) dataNoArgs
      = Except.ok (Expression.VariableMapping "ret" Types.Int) :=
  walk_and_replace_idempotent (Expression.VariableMapping "ret" Types.Unknown)
    dataNoArgs (Expression.VariableMapping "ret" Types.Int) rfl

theorem parse_attributes_items_bad (pname v : String)
    (h1 : pname ≠ "pre") (h2 : pname ≠ "post") :
    ∀ (items : List NestedItem), NestedItem.nameValueStr pname v ∈ items →
    ∀ pre post, ∃ m, parse_attributes_items items pre post = Except.error m := by
  intro items
  induction items with
  | nil => intro hmem; cases hmem
  | cons head rest ih =>
    intro hmem pre post
    rcases List.mem_cons.mp hmem with hh | hr
    · rw [← hh]
      simp only [parse_attributes_items, if_neg h1, if_neg h2]
      exact ⟨_, rfl⟩
    · cases head with
      | nameValueStr n w =>
        by_cases hn : n = "pre"
        · simp only [parse_attributes_items, if_pos hn]
          exact ih hr w post
        · by_cases hn2 : n = "post"
          · simp only [parse_attributes_items, if_neg hn, if_pos hn2]
            exact ih hr pre w
          · simp only [parse_attributes_items, if_neg hn, if_neg hn2]
            exact ⟨_, rfl⟩
      | nameValueOther n =>
        simp only [parse_attributes_items]
        exact ih hr pre post
      | otherItem =>
        simp only [parse_attributes_items]
        exact ih hr pre post

theorem parse_attributes_attrs_bad (pname v : String)
    (h1 : pname ≠ "pre") (h2 : pname ≠ "post") :
    ∀ (attrs : List AttrValue) (items : List NestedItem),
    AttrValue.list items ∈ attrs → NestedItem.nameValueStr pname v ∈ items →
    ∀ pre post, ∃ m, parse_attributes_attrs attrs pre post = Except.error m := by
  intro attrs
  induction attrs with
  | nil => intro items hA; cases hA
  | cons head rest ih =>
    intro items hA hI pre post
    rcases List.mem_cons.mp hA with hh | hr
    · rw [← hh]
      obtain ⟨m, hm⟩ := parse_attributes_items_bad pname v h1 h2 items hI pre post
      exact ⟨m, by simp [parse_attributes_attrs, hm]⟩
    · cases head with
      | list items2 =>
        cases hpi : parse_attributes_items items2 pre post with
        | error m => exact ⟨m, by simp [parse_attributes_attrs, hpi]⟩
        | ok pq =>
          obtain ⟨p, q⟩ := pq
          obtain ⟨m, hm⟩ := ih items hr hI p q
          exact ⟨m, by simp [parse_attributes_attrs, hpi, hm]⟩
      | notList =>
        obtain ⟨m, hm⟩ := ih items hr hI pre post
        exact ⟨m, by simp [parse_attributes_attrs, hm]⟩

/-- Claim C9, confirmed: an attribute list containing a string name-value
parameter whose name is neither pre nor post makes parse_attributes abort
the compilation (a panic in the source) rather than ignore the parameter
or skip the function. -/
theorem parse_attributes_unknown_param_aborts (attrs : List AttrValue)
    (items : List NestedItem) (pname v : String)
    (hA : AttrValue.list items ∈ attrs)
    (hI : NestedItem.nameValueStr pname v ∈ items)
    (h1 : pname ≠ "pre") (h2 : pname ≠ "post") :
    ∃ m, parse_attributes attrs = Except.error m :=
  parse_attributes_attrs_bad pname v h1 h2 attrs items hA hI "" ""

theorem parse_attributes_unknown_param_aborts_witness :
    ∃ m, parse_attributes [AttrValue.list [NestedItem.nameValueStr "foo" "1"]]
      = Except.error m :=
  parse_attributes_unknown_param_aborts
    [AttrValue.list [NestedItem.nameValueStr "foo" "1"]]
    [NestedItem.nameValueStr "foo" "1"] "foo" "1"
    (by simp) (by simp) (by decide) (by decide)

theorem parse_attributes_items_no_pre (items : List NestedItem)
    (hnb : (items.all fun i => !(itemBad i)) = true)
    (hns : items.any (itemSetsParam "pre") = false) :
    ∀ pre post, ∃ q, parse_attributes_items items pre post = Except.ok (pre, q) := by
  induction items with
  | nil => intro pre post; exact ⟨post, rfl⟩
  | cons head rest ih =>
    intro pre post
    simp only [List.all_cons, Bool.and_eq_true] at hnb
    obtain ⟨hnb1, hnb2⟩ := hnb
    simp only [List.any_cons, Bool.or_eq_false_iff] at hns
    obtain ⟨hns1, hns2⟩ := hns
    cases head with
    | nameValueStr n w =>
      have hns1' : n ≠ "pre" := by
        intro hc
        simp [itemSetsParam, hc] at hns1
      have hpost : n = "post" := by
        by_contra hnp
        have hbad : itemBad (NestedItem.nameValueStr n w) = true := by
          simp [itemBad, hns1', hnp]
        rw [hbad] at hnb1
        exact absurd hnb1 (by simp)
      simp only [parse_attributes_items, if_neg hns1', if_pos hpost]
      exact ih hnb2 hns2 pre w
    | nameValueOther n =>
      simp only [parse_attributes_items]
      exact ih hnb2 hns2 pre post
    | otherItem =>
      simp only [parse_attributes_items]
      exact ih hnb2 hns2 pre post

theorem parse_attributes_items_no_post (items : List NestedItem)
    (hnb : (items.all fun i => !(itemBad i)) = true)
    (hns : items.any (itemSetsParam "post") = false) :
    ∀ pre post, ∃ p, parse_attributes_items items pre post = Except.ok (p, post) := by
  induction items with
  | nil => intro pre post; exact ⟨pre, rfl⟩
  | cons head rest ih =>
    intro pre post
    simp only [List.all_cons, Bool.and_eq_true] at hnb
    obtain ⟨hnb1, hnb2⟩ := hnb
    simp only [List.any_cons, Bool.or_eq_false_iff] at hns
    obtain ⟨hns1, hns2⟩ := hns
    cases head with
    | nameValueStr n w =>
      have hns1' : n ≠ "post" := by
        intro hc
        simp [itemSetsParam, hc] at hns1
      have hpre : n = "pre" := by
        by_contra hnp
        have hbad : itemBad (NestedItem.nameValueStr n w) = true := by
          simp [itemBad, hns1', hnp]
        rw [hbad] at hnb1
        exact absurd hnb1 (by simp)
      simp only [parse_attributes_items, if_pos hpre]
      exact ih hnb2 hns2 w post
    | nameValueOther n =>
      simp only [parse_attributes_items]
      exact ih hnb2 hns2 pre post
    | otherItem =>
      simp only [parse_attributes_items]
      exact ih hnb2 hns2 pre post

theorem parse_attributes_attrs_no_pre (attrs : List AttrValue)
    (hnb : attrsNoBad attrs = true)
    (hns : attrsSetParam "pre" attrs = false) :
    ∀ pre post, ∃ q, parse_attributes_attrs attrs pre post = Except.ok (pre, q) := by
  induction attrs with
  | nil => intro pre post; exact ⟨post, rfl⟩
  | cons head rest ih =>
    intro pre post
    simp only [attrsNoBad, List.all_cons, Bool.and_eq_true] at hnb
    obtain ⟨hnb1, hnb2⟩ := hnb
    simp only [attrsSetParam, List.any_cons, Bool.or_eq_false_iff] at hns
    obtain ⟨hns1, hns2⟩ := hns
    cases head with
    | list items =>
      obtain ⟨q1, hq1⟩ := parse_attributes_items_no_pre items hnb1 hns1 pre post
      obtain ⟨q2, hq2⟩ := ih hnb2 hns2 pre q1
      exact ⟨q2, by simp [parse_attributes_attrs, hq1, hq2]⟩
    | notList =>
      obtain ⟨q2, hq2⟩ := ih hnb2 hns2 pre post
      exact ⟨q2, by simp [parse_attributes_attrs, hq2]⟩

theorem parse_attributes_attrs_no_post (attrs : List AttrValue)
    (hnb : attrsNoBad attrs = true)
    (hns : attrsSetParam "post" attrs = false) :
    ∀ pre post, ∃ p, parse_attributes_attrs attrs pre post = Except.ok (p, post) := by
  induction attrs with
  | nil => intro pre post; exact ⟨pre, rfl⟩
  | cons head rest ih =>
    intro pre post
    simp only [attrsNoBad, List.all_cons, Bool.and_eq_true] at hnb
    obtain ⟨hnb1, hnb2⟩ := hnb
    simp only [attrsSetParam, List.any_cons, Bool.or_eq_false_iff] at hns
    obtain ⟨hns1, hns2⟩ := hns
    cases head with
    | list items =>
      obtain ⟨p1, hp1⟩ := parse_attributes_items_no_post items hnb1 hns1 pre post
      obtain ⟨p2, hp2⟩ := ih hnb2 hns2 p1 post
      exact ⟨p2, by simp [parse_attributes_attrs, hp1, hp2]⟩
    | notList =>
      obtain ⟨p2, hp2⟩ := ih hnb2 hns2 pre post
      exact ⟨p2, by simp [parse_attributes_attrs, hp2]⟩

/-- Claim C7, counterexample: an annotation whose only parameter is the
stray string name-value foo lacks both pre and post, yet run_pass aborts
the compilation with the parse_attributes panic instead of skipping the
function without error. -/
theorem run_pass_missing_post_aborts_counterexample :
    attrsSetParam "pre" [AttrValue.list [NestedItem.nameValueStr "foo" "1"]] = false ∧
    attrsSetParam "post" [AttrValue.list [NestedItem.nameValueStr "foo" "1"]] = false ∧
    run_pass "f" [AttrValue.list [NestedItem.nameValueStr "foo" "1"]]
      (fun _ => Except.error "unexpected token") [] [] [] [] Ty.int
      = RunOutcome.aborted "I only accept pre and post. You gave me foo" :=
  ⟨rfl, rfl, rfl⟩

/-- Claim C7, amended: provided the annotation contains no string
name-value parameter other than pre and post (such a parameter aborts, see
the counterexample), a function whose annotation lacks pre or lacks post
is skipped by the early return of run_pass and no error is raised. -/
theorem run_pass_missing_param_skips (name : String) (attrs : List AttrValue)
    (parse_Cond : String → Except ParseErr Expression)
    (blocks : List BasicBlockData) (args vars temps : List LocalDecl) (rty : Ty)
    (hnb : attrsNoBad attrs = true)
    (hmiss : attrsSetParam "pre" attrs = false ∨ attrsSetParam "post" attrs = false) :
    run_pass name attrs parse_Cond blocks args vars temps rty = RunOutcome.skipped := by
  cases hmiss with
  | inl h =>
    obtain ⟨q, hq⟩ := parse_attributes_attrs_no_pre attrs hnb h "" ""
    simp [run_pass, parse_attributes, hq]
  | inr h =>
    obtain ⟨p, hp⟩ := parse_attributes_attrs_no_post attrs hnb h "" ""
    simp [run_pass, parse_attributes, hp]

theorem run_pass_missing_param_skips_witness :
    run_pass "f" [AttrValue.list [NestedItem.nameValueStr "post" "true"]]
      (fun _ => Except.error "unexpected token") [] [] [] [] Ty.int
      = RunOutcome.skipped :=
  run_pass_missing_param_skips "f"
    [AttrValue.list [NestedItem.nameValueStr "post" "true"]]
    (fun _ => Except.error "unexpected token") [] [] [] [] Ty.int
    (by decide) (Or.inl (by decide))

theorem isAbort_exists (o : RunOutcome) (h : o.isAbort = true) :
    ∃ m, o = RunOutcome.aborted m := by
  cases o with
  | aborted m => exact ⟨m, rfl⟩
  | skipped => simp [RunOutcome.isAbort] at h
  | completed q => simp [RunOutcome.isAbort] at h

/-- Claim C5, counterexample: a function whose precondition text does not
parse is not merely skipped with a diagnostic; run_pass aborts the whole
compilation (the panic in parse_condition), which would also prevent
verification of every other function. -/
theorem run_pass_parse_error_aborts :
    condParserTT "tru" = Except.error "unexpected token" ∧
    run_pass "f"
      [AttrValue.list
        [NestedItem.nameValueStr "pre" "tru", NestedItem.nameValueStr "post" "true"]]
      condParserTT [] [] [] [] Ty.int
      = RunOutcome.aborted "Error parsing condition tru" :=
  ⟨rfl, rfl⟩

/-- Claim C5, amended: a malformed condition text or a condition rejected
by the type check does not lead to a per-function skip; run_pass aborts
(panics) with the corresponding message, ending the whole pass. -/
theorem run_pass_condition_errors_abort (name : String) (attrs : List AttrValue)
    (parse_Cond : String → Except ParseErr Expression)
    (blocks : List BasicBlockData) (args vars temps : List LocalDecl) (rty : Ty)
    (pre_s post_s : String)
    (hA : parse_attributes attrs = Except.ok (pre_s, post_s))
    (hp : pre_s ≠ "") (hq : post_s ≠ "")
    (herr :
      (∃ e, parse_Cond pre_s = Except.error e) ∨
      (∃ e, parse_Cond post_s = Except.error e) ∨
      (∃ pre0 pre1 te, parse_Cond pre_s = Except.ok pre0 ∧
        walk_and_replace pre0 (MirData.mk blocks args vars temps rty) = Except.ok pre1 ∧
        ty_check pre1 = Except.error te) ∨
      (∃ pre0 post0 pre1 post1 te,
        parse_Cond pre_s = Except.ok pre0 ∧ parse_Cond post_s = Except.ok post0 ∧
        walk_and_replace pre0 (MirData.mk blocks args vars temps rty) = Except.ok pre1 ∧
        walk_and_replace post0 (MirData.mk blocks args vars temps rty) = Except.ok post1 ∧
        ty_check post1 = Except.error te)) :
    ∃ m, run_pass name attrs parse_Cond blocks args vars temps rty
      = RunOutcome.aborted m := by
  apply isAbort_exists
  rcases herr with ⟨e, he⟩ | ⟨e, he⟩ | ⟨pre0, pre1, te, h1, h2, h3⟩
    | ⟨pre0, post0, pre1, post1, te, h1, h2, h3, h4, h5⟩
  · simp [run_pass, hA, hp, hq, parse_condition, he, RunOutcome.isAbort]
  · cases hpre : parse_Cond pre_s with
    | error e1 =>
      simp [run_pass, hA, hp, hq, parse_condition, hpre, RunOutcome.isAbort]
    | ok pre0 =>
      simp [run_pass, hA, hp, hq, parse_condition, hpre, he, RunOutcome.isAbort]
  · cases hpost : parse_Cond post_s with
    | error e1 =>
      simp [run_pass, hA, hp, hq, parse_condition, h1, hpost, RunOutcome.isAbort]
    | ok post0 =>
      cases hwpost : walk_and_replace post0 (MirData.mk blocks args vars temps rty) with
      | error m =>
        simp [run_pass, hA, hp, hq, parse_condition, h1, hpost, h2, hwpost,
          RunOutcome.isAbort]
      | ok post1 =>
        simp [run_pass, hA, hp, hq, parse_condition, h1, hpost, h2, hwpost, h3,
          RunOutcome.isAbort]
  · cases hty : ty_check pre1 with
    | error te1 =>
      simp [run_pass, hA, hp, hq, parse_condition, h1, h2, h3, h4, hty,
        RunOutcome.isAbort]
    | ok t1 =>
      simp [run_pass, hA, hp, hq, parse_condition, h1, h2, h3, h4, hty, h5,
        RunOutcome.isAbort]

theorem run_pass_condition_errors_abort_witness :
    ∃ m, run_pass "f"
      [AttrValue.list
        [NestedItem.nameValueStr "pre" "tru", NestedItem.nameValueStr "post" "true"]]
      condParserTT [] [] [] [] Ty.int
      = RunOutcome.aborted m :=
  run_pass_condition_errors_abort "f"
    [AttrValue.list
      [NestedItem.nameValueStr "pre" "tru", NestedItem.nameValueStr "post" "true"]]
    condParserTT [] [] [] [] Ty.int "tru" "true" rfl (by decide) (by decide)
    (Or.inl ⟨"unexpected token", rfl⟩)

theorem walk_and_replace_blocks_irrel (e : Expression) (b b' : List BasicBlockData)
    (args vars temps : List LocalDecl) (rty : Ty) :
    walk_and_replace e (MirData.mk b args vars temps rty)
      = walk_and_replace e (MirData.mk b' args vars temps rty) := by
  induction e with
  | BooleanLiteral v => rfl
  | IntegerLiteral v => rfl
  | VariableMapping a t => simp [walk_and_replace, get_argument_type]
  | BinaryExpression l op r ihl ihr => simp [walk_and_replace, ihl, ihr]
  | UnaryExpression op e1 ih => simp [walk_and_replace, ih]

/-- Claim C6, counterexample: a function whose control-flow graph has a
back-edge (its single block is its own successor), carrying no loop
invariant, is not reported as unsupported: run_pass runs to completion and
hands the solver the fixed query, the same as for any loop-free function;
no UnannotatedLoop (or any Unsupported) outcome exists in the code. -/
theorem run_pass_back_edge_reaches_solver :
    hasBackEdge loopBlocks ∧
    run_pass "f" attrsTT condParserTT loopBlocks [] [] [] Ty.int
      = RunOutcome.completed stanleyFixedQuery := by
  refine ⟨⟨0, Relation.TransGen.single ?_⟩, rfl⟩
  exact ⟨BasicBlockData.mk [0], rfl, by simp⟩

/-- Claim C6, amended: run_pass never inspects the collected basic blocks,
so its outcome is identical for every control-flow graph; in particular a
graph with a back-edge and no invariant is processed exactly like a
loop-free one and is never reported UnannotatedLoop. -/
theorem run_pass_ignores_blocks (name : String) (attrs : List AttrValue)
    (parse_Cond : String → Except ParseErr Expression)
    (b b' : List BasicBlockData)
    (args vars temps : List LocalDecl) (rty : Ty) :
    run_pass name attrs parse_Cond b args vars temps rty
      = run_pass name attrs parse_Cond b' args vars temps rty := by
  unfold run_pass
  cases hA : parse_attributes attrs with
  | error m => rfl
  | ok pq =>
    obtain ⟨pre_s, post_s⟩ := pq
    by_cases h : (pre_s = "" ∨ post_s = "")
    · simp [h]
    · simp only [if_neg h]
      cases hpre : parse_condition parse_Cond pre_s with
      | error m => rfl
      | ok pre0 =>
        cases hpost : parse_condition parse_Cond post_s with
        | error m => rfl
        | ok post0 =>
          simp only
          rw [walk_and_replace_blocks_irrel pre0 b b' args vars temps rty]
          cases hw1 : walk_and_replace pre0 (MirData.mk b' args vars temps rty) with
          | error m => rfl
          | ok pre1 =>
            rw [walk_and_replace_blocks_irrel post0 b b' args vars temps rty]

/-- Claim C1, counterexample: two functions with different contracts (post
true versus post x > 0, hence different verification conditions and
different negations) are both handed the identical fixed query; that query
contains no negation node at all, although the term-by-term encoding of
the negation of any verification condition is a negation node (last
conjunct, at the condition true), and it is satisfiable (fourth conjunct),
so asserting it can never certify validity by unsatisfiability. -/
theorem run_pass_submits_fixed_query_counterexample :
    run_pass "f" attrsTT condParserTT [] [] [] [] Ty.int
      = RunOutcome.completed stanleyFixedQuery ∧
    run_pass "g" attrsXgt condParserXgt [] argX [] [] Ty.int
      = RunOutcome.completed stanleyFixedQuery ∧
    (stanleyFixedQuery.all fun a => !(isNegZ3 a)) = true ∧
    evalAsserts stanleyFixedQuery envW = true ∧
    encode_spec (Expression.UnaryExpression UnaryOperator.Not
        (Expression.BooleanLiteral true))
      = some (Z3Ast.not (Z3Ast.boolLit true)) :=
  ⟨rfl, rfl, rfl, by decide, rfl⟩

/-- Claim C1, amended: the verification-condition construction is
commented out in the source; whenever run_pass reaches the solver, the
assertions submitted are the fixed query x > y, y > 0, y rem 7 = 2,
x + 2 > 7, independent of the precondition, the postcondition and the
control-flow graph, and that query is satisfiable (so the check the
source makes on the solver answer succeeds and a model is printed); no
Valid or Invalid verdict is computed from the conditions. -/
theorem run_pass_completed_asserts_fixed (name : String) (attrs : List AttrValue)
    (parse_Cond : String → Except ParseErr Expression)
    (blocks : List BasicBlockData) (args vars temps : List LocalDecl) (rty : Ty)
    (q : List Z3Ast)
    (h : run_pass name attrs parse_Cond blocks args vars temps rty
      = RunOutcome.completed q) :
    q = stanleyFixedQuery ∧ evalAsserts q envW = true := by
  have hq : q = stanleyFixedQuery := by
    unfold run_pass at h
    repeat' split at h
    all_goals try dsimp only at h
    repeat' split at h
    all_goals simp_all [gen_smtlib_asserts]
  subst hq
  exact ⟨rfl, by decide⟩

theorem run_pass_completed_asserts_fixed_witness :
    stanleyFixedQuery = stanleyFixedQuery ∧
    evalAsserts stanleyFixedQuery envW = true :=
  run_pass_completed_asserts_fixed "f" attrsTT condParserTT [] [] [] [] Ty.int
    stanleyFixedQuery rfl
